import Mathlib

/-!
Shallow embedding of `src/mdp_network/solvers.py` (policy evaluation, optimal
value iteration, Q-learning, occupancy measure) over exact rational arithmetic.

The MDP model and the tabular containers live outside `src/`; they are used by
the solvers only through the contract of spec §6, so they are modelled here:
tables as association lists with Python-dict set/get semantics, the model as a
structure of the contract's fields, the seeded numpy generator as a stream of
rational draws indexed by consumption order.
-/

namespace MDPSolvers

/-- Python-dict assignment `d[k] = v` on an association list: overwrite the
first binding of `k`, or append a fresh binding (insertion order preserved). -/
def setv {K : Type} [DecidableEq K] : List (K × ℚ) → K → ℚ → List (K × ℚ)
  | [], k, v => [(k, v)]
  | (k0, v0) :: rest, k, v =>
      if k0 = k then (k, v) :: rest else (k0, v0) :: setv rest k v

/-- Python-dict lookup `d[k]` on an association list.  The solvers fully
initialise every table before reading it, so the default 0 is never the value
of an exercised read for in-universe keys. -/
def getv {K : Type} [DecidableEq K] : List (K × ℚ) → K → ℚ
  | [], _ => 0
  | (k0, v0) :: rest, k => if k0 = k then v0 else getv rest k

/-- Python `d[k] += v` for a key that is present (`compute_occupancy_measure`
line 363 only ever adds at keys of `next_distribution`, which holds every
state of the universe; for an out-of-universe key Python would raise KeyError,
here the addition is dropped). -/
def addv {K : Type} [DecidableEq K] : List (K × ℚ) → K → ℚ → List (K × ℚ)
  | [], _, _ => []
  | (k0, v0) :: rest, k, v =>
      if k0 = k then (k0, v0 + v) :: rest else (k0, v0) :: addv rest k v

/-- The model contract of spec §6 consumed by the solvers (`MDPNetwork` is not
under `src/`): state list, action count, terminal and start classification,
transition distributions as association lists, state-attached rewards. -/
structure MDPNetwork (S : Type) where
  states : List S
  num_actions : ℕ
  is_terminal_state : S → Bool
  start_states : List S
  get_transition_probabilities : S → ℕ → List (S × ℚ)
  get_state_reward : S → ℚ

/-- spec §6: `PolicyTable.get_action_probabilities`, a mapping from state to a
distribution over actions, as an association list per state. -/
def PolicyTable (S : Type) : Type := S → List (ℕ × ℚ)

/-- Lines 62-66 / 153-157 / 352-356 of `solvers.py`: fetch the transition
distribution of a state-action pair, falling back to a deterministic self-loop
when the model defines no transition. -/
def resolved_transitions {S : Type} (m : MDPNetwork S) (s : S) (a : ℕ) :
    List (S × ℚ) :=
  if (m.get_transition_probabilities s a).isEmpty then [(s, 1)]
  else m.get_transition_probabilities s a

/-- Initialisation pattern `for state in states: table.set_value(state, 0.0)`
(lines 34-35, 308-309, and the `next_distribution` comprehension of line 327). -/
def zero_table {S : Type} [DecidableEq S] (states : List S) : List (S × ℚ) :=
  states.foldl (fun t s => setv t s 0) []

/-- Lines 126-129 / 227-230: per state, zero the value entry and the Q entry of
every action in `range(num_actions)`. -/
def init_tables {S : Type} [DecidableEq S] (states : List S)
    (num_actions : ℕ) : List (S × ℚ) × List ((S × ℕ) × ℚ) :=
  states.foldl
    (fun t s =>
      (setv t.1 s 0, (List.range num_actions).foldl (fun q a => setv q (s, a) 0) t.2))
    ([], [])

/-- Python `max(action_values) if action_values else 0.0` (line 175). -/
def pymax : List ℚ → ℚ
  | [] => 0
  | x :: xs => xs.foldl max x

/-- Lines 59-77 (and identically 150-168): one-action backup
`sum over next states of prob * (reward(next) + gamma * value(next))`. -/
def action_value {S : Type} [DecidableEq S] (reward : S → ℚ)
    (rtrans : S → ℕ → List (S × ℚ)) (γ : ℚ) (V : List (S × ℚ)) (s : S)
    (a : ℕ) : ℚ :=
  (rtrans s a).foldl (fun acc np => acc + np.2 * (reward np.1 + γ * getv V np.1)) 0

/-- Lines 50-80: policy-weighted expectation over actions, skipping actions of
non-positive probability. -/
def pe_state_value {S : Type} [DecidableEq S] (reward : S → ℚ)
    (rtrans : S → ℕ → List (S × ℚ)) (p : PolicyTable S) (γ : ℚ)
    (V : List (S × ℚ)) (s : S) : ℚ :=
  (p s).foldl
    (fun acc ap =>
      if ap.2 ≤ 0 then acc else acc + ap.2 * action_value reward rtrans γ V s ap.1)
    0

/-- Lines 41-87: one sweep of policy evaluation over the state list, updating
the value table in place and tracking the maximum absolute change. -/
def pe_sweep {S : Type} [DecidableEq S] (is_terminal : S → Bool)
    (reward : S → ℚ) (rtrans : S → ℕ → List (S × ℚ)) (p : PolicyTable S)
    (γ : ℚ) : List S → List (S × ℚ) → ℚ → List (S × ℚ) × ℚ
  | [], V, d => (V, d)
  | s :: rest, V, d =>
      if is_terminal s then
        pe_sweep is_terminal reward rtrans p γ rest (setv V s 0) d
      else
        let oldv := getv V s
        let newv := pe_state_value reward rtrans p γ V s
        pe_sweep is_terminal reward rtrans p γ rest (setv V s newv)
          (max d |newv - oldv|)

/-- Lines 38-94: the bounded iteration loop with the `max_delta < theta` early
exit (the convergence/non-convergence prints carry no returned value). -/
def pe_loop {S : Type} [DecidableEq S] (states : List S)
    (is_terminal : S → Bool) (reward : S → ℚ)
    (rtrans : S → ℕ → List (S × ℚ)) (p : PolicyTable S) (γ θ : ℚ) :
    ℕ → List (S × ℚ) → List (S × ℚ)
  | 0, V => V
  | Nat.succ n, V =>
      let r := pe_sweep is_terminal reward rtrans p γ states V 0
      if r.2 < θ then r.1
      else pe_loop states is_terminal reward rtrans p γ θ n r.1

/-- Lines 7-96: `policy_evaluation`. -/
def policy_evaluation {S : Type} [DecidableEq S] (m : MDPNetwork S)
    (p : PolicyTable S) (γ θ : ℚ) (max_iterations : ℕ) : List (S × ℚ) :=
  pe_loop m.states m.is_terminal_state m.get_state_reward
    (resolved_transitions m) p γ θ max_iterations (zero_table m.states)

/-- Lines 146-172: the per-state action loop of value iteration, storing each
Q-value and collecting `action_values` in action order. -/
def ovi_action_loop {S : Type} [DecidableEq S] (reward : S → ℚ)
    (rtrans : S → ℕ → List (S × ℚ)) (γ : ℚ) (V : List (S × ℚ)) (s : S) :
    List ℕ → List ((S × ℕ) × ℚ) → List ℚ → List ((S × ℕ) × ℚ) × List ℚ
  | [], q, avs => (q, avs)
  | a :: rest, q, avs =>
      let qv := action_value reward rtrans γ V s a
      ovi_action_loop reward rtrans γ V s rest (setv q (s, a) qv) (avs ++ [qv])

/-- Lines 135-180: one sweep of optimal value iteration. -/
def ovi_sweep {S : Type} [DecidableEq S] (is_terminal : S → Bool)
    (reward : S → ℚ) (rtrans : S → ℕ → List (S × ℚ)) (γ : ℚ)
    (num_actions : ℕ) :
    List S → List (S × ℚ) × List ((S × ℕ) × ℚ) × ℚ →
      List (S × ℚ) × List ((S × ℕ) × ℚ) × ℚ
  | [], acc => acc
  | s :: rest, (V, q, d) =>
      if is_terminal s then
        ovi_sweep is_terminal reward rtrans γ num_actions rest
          (setv V s 0,
            (List.range num_actions).foldl (fun qq a => setv qq (s, a) 0) q, d)
      else
        let oldv := getv V s
        let r := ovi_action_loop reward rtrans γ V s (List.range num_actions) q []
        let newv := pymax r.2
        ovi_sweep is_terminal reward rtrans γ num_actions rest
          (setv V s newv, r.1, max d |newv - oldv|)

/-- Lines 131-187: the bounded iteration loop of value iteration. -/
def ovi_loop {S : Type} [DecidableEq S] (states : List S)
    (is_terminal : S → Bool) (reward : S → ℚ)
    (rtrans : S → ℕ → List (S × ℚ)) (γ θ : ℚ) (num_actions : ℕ) :
    ℕ → List (S × ℚ) × List ((S × ℕ) × ℚ) →
      List (S × ℚ) × List ((S × ℕ) × ℚ)
  | 0, t => t
  | Nat.succ n, t =>
      let r := ovi_sweep is_terminal reward rtrans γ num_actions states
        (t.1, t.2, 0)
      if r.2.2 < θ then (r.1, r.2.1)
      else ovi_loop states is_terminal reward rtrans γ θ num_actions n
        (r.1, r.2.1)

/-- Lines 99-189: `optimal_value_iteration`, returning the pair
(value table, Q table). -/
def optimal_value_iteration {S : Type} [DecidableEq S] (m : MDPNetwork S)
    (γ θ : ℚ) (max_iterations : ℕ) :
    List (S × ℚ) × List ((S × ℕ) × ℚ) :=
  ovi_loop m.states m.is_terminal_state m.get_state_reward
    (resolved_transitions m) γ θ m.num_actions max_iterations
    (init_tables m.states m.num_actions)

/-- Modelled from the spec (§6 `sampleStartState` and numpy `integers(0, n)`,
neither under `src/`): an index in `[0, n)` derived deterministically from one
uniform draw. -/
def sample_index (u : ℚ) (n : ℕ) : ℕ :=
  min (Int.toNat ⌊u * (n : ℚ)⌋) (n - 1)

/-- Modelled from the spec (§6 `sampleNextState`): inverse-CDF selection from
a distribution, with the argument state as the exhaustion fallback. -/
def sample_pick {S : Type} : List (S × ℚ) → ℚ → S → S
  | [], _, s0 => s0
  | (t, pr) :: rest, u, s0 => if u < pr then t else sample_pick rest (u - pr) s0

/-- Modelled from the spec (§6 `sampleNextState`, §3 self-loop resolution of
empty distributions before use). -/
def sample_next_state {S : Type} (m : MDPNetwork S) (s : S) (a : ℕ)
    (u : ℚ) : S :=
  sample_pick (resolved_transitions m s a) u s

/-- Modelled from the spec (§3/§6 `QTable.bestAction`, not under `src/`):
argmax over the fixed action range with the first-index tie-break (a later
action replaces the incumbent only on a strictly greater Q-value). -/
def get_best_action {S : Type} [DecidableEq S] (q : List ((S × ℕ) × ℚ))
    (s : S) (num_actions : ℕ) : ℕ × ℚ :=
  match num_actions with
  | 0 => (0, 0)
  | Nat.succ n =>
      (List.range (Nat.succ n)).foldl
        (fun best a =>
          let qa := getv q (s, a)
          if best.2 < qa then (a, qa) else best)
        (0, getv q (s, 0))

/-- Lines 237-271: the step loop of one Q-learning episode.  The numpy
generator is the stream `r` read at strictly increasing indices: one draw for
the epsilon test, one more for an exploring action, one for the next-state
sample. -/
def ql_steps {S : Type} [DecidableEq S] (m : MDPNetwork S) (α γ ε : ℚ)
    (r : ℕ → ℚ) : ℕ → S → List ((S × ℕ) × ℚ) → ℕ → List ((S × ℕ) × ℚ) × ℕ
  | 0, _, q, i => (q, i)
  | Nat.succ k, s, q, i =>
      if m.is_terminal_state s then (q, i)
      else
        let explore := r i < ε
        let a := if explore then sample_index (r (i + 1)) m.num_actions
          else (get_best_action q s m.num_actions).1
        let i2 := if explore then i + 2 else i + 1
        let ns := sample_next_state m s a (r i2)
        let rew := m.get_state_reward ns
        let curq := getv q (s, a)
        let target := if m.is_terminal_state ns then rew
          else rew + γ * (get_best_action q ns m.num_actions).2
        ql_steps m α γ ε r k ns (setv q (s, a) (curq + α * (target - curq)))
          (i2 + 1)

/-- Lines 233-275: the episode loop.  Sampling a start state from an empty
start set fails (numpy raises), and the progress report of line 274 evaluates
`(episode + 1) % (num_episodes // 10)`, which raises ZeroDivisionError whenever
`num_episodes // 10 == 0`; both are modelled as `Except.error`. -/
def ql_episodes {S : Type} [DecidableEq S] (m : MDPNetwork S) (α γ ε : ℚ)
    (num_episodes max_steps : ℕ) (r : ℕ → ℚ) :
    ℕ → List ((S × ℕ) × ℚ) → ℕ → Except Unit (List ((S × ℕ) × ℚ) × ℕ)
  | 0, q, i => Except.ok (q, i)
  | Nat.succ k, q, i =>
      match m.start_states with
      | [] => Except.error ()
      | s0 :: ss =>
          let st := (s0 :: ss).getD (sample_index (r i) (s0 :: ss).length) s0
          let res := ql_steps m α γ ε r max_steps st q (i + 1)
          if num_episodes / 10 = 0 then Except.error ()
          else ql_episodes m α γ ε num_episodes max_steps r k res.1 res.2

/-- Lines 192-287: `q_learning`.  The seeded generator enters as the stream of
its draws (a fixed seed determines the stream); the derived value table of
lines 277-285 takes the best Q-value per non-terminal state and 0 at terminal
states. -/
def q_learning {S : Type} [DecidableEq S] (m : MDPNetwork S) (α γ ε : ℚ)
    (num_episodes max_steps_per_episode : ℕ) (r : ℕ → ℚ) :
    Except Unit (List ((S × ℕ) × ℚ) × List (S × ℚ)) :=
  let t := init_tables m.states m.num_actions
  match ql_episodes m α γ ε num_episodes max_steps_per_episode r num_episodes
      t.2 0 with
  | Except.error e => Except.error e
  | Except.ok qi =>
      Except.ok (qi.1,
        m.states.foldl
          (fun V s =>
            if m.is_terminal_state s then setv V s 0
            else setv V s (get_best_action qi.1 s m.num_actions).2)
          t.1)

/-- Lines 330-363: processing of one `(state, state_prob)` entry of the current
distribution: skip non-positive mass and terminal states, accumulate occupancy,
and propagate discounted mass to non-terminal next-states. -/
def occ_state_step {S : Type} [DecidableEq S] (is_terminal : S → Bool)
    (rtrans : S → ℕ → List (S × ℚ)) (p : PolicyTable S) (γ : ℚ)
    (acc : List (S × ℚ) × ℚ × List (S × ℚ)) (sp : S × ℚ) :
    List (S × ℚ) × ℚ × List (S × ℚ) :=
  if sp.2 ≤ 0 then acc
  else if is_terminal sp.1 then acc
  else
    let old := getv acc.1 sp.1
    let occ2 := setv acc.1 sp.1 (old + sp.2)
    let chg := max acc.2.1 |old + sp.2 - old|
    let nd2 := (p sp.1).foldl
      (fun nd ap =>
        if ap.2 ≤ 0 then nd
        else
          (rtrans sp.1 ap.1).foldl
            (fun nd np =>
              if is_terminal np.1 then nd
              else addv nd np.1 (sp.2 * ap.2 * np.2 * γ))
            nd)
      acc.2.2
    (occ2, chg, nd2)

/-- Lines 325-373: the bounded occupancy iteration, threading the occupancy
table and the current distribution, with the `max_change < theta` early exit. -/
def occ_loop {S : Type} [DecidableEq S] (states : List S)
    (is_terminal : S → Bool) (rtrans : S → ℕ → List (S × ℚ))
    (p : PolicyTable S) (γ θ : ℚ) :
    ℕ → List (S × ℚ) → List (S × ℚ) → List (S × ℚ)
  | 0, _, occ => occ
  | Nat.succ n, cd, occ =>
      let r := cd.foldl (occ_state_step is_terminal rtrans p γ)
        (occ, 0, zero_table states)
      if r.2.1 < θ then r.1
      else occ_loop states is_terminal rtrans p γ θ n r.2.2 r.1

/-- Lines 290-380: `compute_occupancy_measure`: early all-zero return when
there are no start states (line 315-317), uniform initial distribution,
iteration, and the final cleanup forcing terminal entries to 0. -/
def compute_occupancy_measure {S : Type} [DecidableEq S] (m : MDPNetwork S)
    (p : PolicyTable S) (γ θ : ℚ) (max_iterations : ℕ) : List (S × ℚ) :=
  if m.start_states.isEmpty then zero_table m.states
  else
    m.states.foldl
      (fun t s => if m.is_terminal_state s then setv t s 0 else t)
      (occ_loop m.states m.is_terminal_state (resolved_transitions m) p γ θ
        max_iterations
        (m.start_states.foldl
          (fun d s => setv d s (1 / (m.start_states.length : ℚ))) [])
        (zero_table m.states))

/-- Modelled from the spec: the Jacobi-style synchronous sweep the spec's §4.1
update rule describes, in which every state's backup and its convergence delta
read the value table exactly as it stood at the start of the sweep. -/
def pe_sweep_jacobi {S : Type} [DecidableEq S] (is_terminal : S → Bool)
    (reward : S → ℚ) (rtrans : S → ℕ → List (S × ℚ)) (p : PolicyTable S)
    (γ : ℚ) (states : List S) (V : List (S × ℚ)) : List (S × ℚ) × ℚ :=
  states.foldl
    (fun acc s =>
      if is_terminal s then (setv acc.1 s 0, acc.2)
      else
        let newv := pe_state_value reward rtrans p γ V s
        (setv acc.1 s newv, max acc.2 |newv - getv V s|))
    (V, 0)

/-- Modelled from the spec: the iteration loop around the Jacobi sweep, with
the same convergence rule as the implementation. -/
def pe_loop_jacobi {S : Type} [DecidableEq S] (states : List S)
    (is_terminal : S → Bool) (reward : S → ℚ)
    (rtrans : S → ℕ → List (S × ℚ)) (p : PolicyTable S) (γ θ : ℚ) :
    ℕ → List (S × ℚ) → List (S × ℚ)
  | 0, V => V
  | Nat.succ n, V =>
      let r := pe_sweep_jacobi is_terminal reward rtrans p γ states V
      if r.2 < θ then r.1
      else pe_loop_jacobi states is_terminal reward rtrans p γ θ n r.1

/-- Modelled from the spec: policy evaluation as claim C5 reads it, with
strictly synchronous (Jacobi) sweeps. -/
def policy_evaluation_jacobi {S : Type} [DecidableEq S] (m : MDPNetwork S)
    (p : PolicyTable S) (γ θ : ℚ) (max_iterations : ℕ) : List (S × ℚ) :=
  pe_loop_jacobi m.states m.is_terminal_state m.get_state_reward
    (resolved_transitions m) p γ θ max_iterations (zero_table m.states)

/-- The in-place (Gauss-Seidel) sweep written as a fold threading the
partially updated table: every state's backup reads the table holding the new
values already committed for the states processed earlier in the sweep. -/
def pe_sweep_inplace {S : Type} [DecidableEq S] (is_terminal : S → Bool)
    (reward : S → ℚ) (rtrans : S → ℕ → List (S × ℚ)) (p : PolicyTable S)
    (γ : ℚ) (states : List S) (acc0 : List (S × ℚ) × ℚ) :
    List (S × ℚ) × ℚ :=
  states.foldl
    (fun acc s =>
      if is_terminal s then (setv acc.1 s 0, acc.2)
      else
        let newv := pe_state_value reward rtrans p γ acc.1 s
        (setv acc.1 s newv, max acc.2 |newv - getv acc.1 s|))
    acc0

/-- The iteration loop around the in-place sweep. -/
def pe_loop_inplace {S : Type} [DecidableEq S] (states : List S)
    (is_terminal : S → Bool) (reward : S → ℚ)
    (rtrans : S → ℕ → List (S × ℚ)) (p : PolicyTable S) (γ θ : ℚ) :
    ℕ → List (S × ℚ) → List (S × ℚ)
  | 0, V => V
  | Nat.succ n, V =>
      let r := pe_sweep_inplace is_terminal reward rtrans p γ states (V, 0)
      if r.2 < θ then r.1
      else pe_loop_inplace states is_terminal reward rtrans p γ θ n r.1

/-- Policy evaluation with the sweep spelled as the in-place fold. -/
def policy_evaluation_inplace {S : Type} [DecidableEq S] (m : MDPNetwork S)
    (p : PolicyTable S) (γ θ : ℚ) (max_iterations : ℕ) : List (S × ℚ) :=
  pe_loop_inplace m.states m.is_terminal_state m.get_state_reward
    (resolved_transitions m) p γ θ max_iterations (zero_table m.states)

/-- The one-step expected reward of an action: the `gamma = 0` specialisation
of the backup of lines 159-168. -/
def one_step_q {S : Type} (reward : S → ℚ)
    (rtrans : S → ℕ → List (S × ℚ)) (s : S) (a : ℕ) : ℚ :=
  (rtrans s a).foldl (fun acc np => acc + np.2 * reward np.1) 0

/-- The maximum one-step expected reward achievable from a state (spec §8's
"maximum single-step reward achievable"), over the fixed action range and the
self-loop-resolved transition distributions. -/
def max_one_step_reward {S : Type} [DecidableEq S] (m : MDPNetwork S)
    (s : S) : ℚ :=
  pymax ((List.range m.num_actions).map
    (one_step_q m.get_state_reward (resolved_transitions m) s))

/-- The model of claim C3: identical to `m` except that the state-action pair
`(s0, a0)` carries an explicit self-loop of probability 1. -/
def with_self_loop {S : Type} [DecidableEq S] (m : MDPNetwork S) (s0 : S)
    (a0 : ℕ) : MDPNetwork S :=
  { m with
    get_transition_probabilities := fun s a =>
      if s = s0 ∧ a = a0 then [(s0, 1)]
      else m.get_transition_probabilities s a }

/-- The 2-state chain of spec §8: states `0 = A` and `1 = B`, one action, a
deterministic transition `A -> B`, `B` terminal, reward 0 at `A` and 1 at `B`. -/
def chain_mdp : MDPNetwork ℕ where
  states := [0, 1]
  num_actions := 1
  is_terminal_state := fun s => s == 1
  start_states := [0]
  get_transition_probabilities := fun s a =>
    if s = 0 ∧ a = 0 then [(1, 1)] else []
  get_state_reward := fun s => if s == 1 then 1 else 0

/-- The policy putting probability 1 on action 0 in every state. -/
def one_policy : PolicyTable ℕ := fun _ => [(0, 1)]

/-- The policy assigning no action any probability. -/
def empty_policy : PolicyTable ℕ := fun _ => []

/-- Two non-terminal states that both move deterministically to state 0, which
carries reward 1: state 1's backup reads state 0's value, so a sweep exposes
whether state 0's in-sweep update is visible to state 1. -/
def loop_mdp : MDPNetwork ℕ where
  states := [0, 1]
  num_actions := 1
  is_terminal_state := fun _ => false
  start_states := [0]
  get_transition_probabilities := fun _ a => if a = 0 then [(0, 1)] else []
  get_state_reward := fun s => if s == 0 then 1 else 0

/-- A model leaving the transition of the non-terminal state 1 under action 0
undefined (the empty distribution). -/
def hole_mdp : MDPNetwork ℕ where
  states := [0, 1]
  num_actions := 1
  is_terminal_state := fun _ => false
  start_states := [0]
  get_transition_probabilities := fun s a =>
    if s = 0 ∧ a = 0 then [(1, 1)] else []
  get_state_reward := fun s => if s == 1 then 1 else 0

/-- A model with an empty start-state set. -/
def nostart_mdp : MDPNetwork ℕ where
  states := [0, 1]
  num_actions := 1
  is_terminal_state := fun s => s == 1
  start_states := []
  get_transition_probabilities := fun s a =>
    if s = 0 ∧ a = 0 then [(1, 1)] else []
  get_state_reward := fun s => if s == 1 then 1 else 0

theorem getv_setv_self {K : Type} [DecidableEq K] (d : List (K × ℚ))
    (k : K) (v : ℚ) : getv (setv d k v) k = v := by
  induction d with
  | nil => simp [setv, getv]
  | cons kv rest ih =>
      by_cases hk : kv.1 = k
      · simp [setv, hk, getv]
      · simp [setv, hk, getv, ih]

theorem getv_setv_other {K : Type} [DecidableEq K] (d : List (K × ℚ))
    (k k2 : K) (v : ℚ) (h : k2 ≠ k) : getv (setv d k v) k2 = getv d k2 := by
  have hne : k ≠ k2 := fun hh => h hh.symm
  induction d with
  | nil => simp [setv, getv, hne]
  | cons kv rest ih =>
      obtain ⟨k0, v0⟩ := kv
      by_cases hk : k0 = k
      · subst hk
        simp [setv, getv, hne]
      · simp [setv, getv, hk, ih]

theorem pe_sweep_eq_inplace {S : Type} [DecidableEq S] (is_terminal : S → Bool)
    (reward : S → ℚ) (rtrans : S → ℕ → List (S × ℚ)) (p : PolicyTable S)
    (γ : ℚ) (l : List S) (V : List (S × ℚ)) (d : ℚ) :
    pe_sweep is_terminal reward rtrans p γ l V d =
      pe_sweep_inplace is_terminal reward rtrans p γ l (V, d) := by
  induction l generalizing V d with
  | nil => rfl
  | cons s rest ih =>
      by_cases hs : is_terminal s
      · simp only [pe_sweep, pe_sweep_inplace, List.foldl_cons, hs, if_true]
        exact ih (setv V s 0) d
      · simp only [pe_sweep, pe_sweep_inplace, List.foldl_cons, hs,
          Bool.false_eq_true, if_false]
        exact ih _ _

theorem pe_loop_eq_inplace {S : Type} [DecidableEq S] (states : List S)
    (is_terminal : S → Bool) (reward : S → ℚ)
    (rtrans : S → ℕ → List (S × ℚ)) (p : PolicyTable S) (γ θ : ℚ)
    (fuel : ℕ) (V : List (S × ℚ)) :
    pe_loop states is_terminal reward rtrans p γ θ fuel V =
      pe_loop_inplace states is_terminal reward rtrans p γ θ fuel V := by
  induction fuel generalizing V with
  | zero => rfl
  | succ n ih =>
      simp only [pe_loop, pe_loop_inplace, pe_sweep_eq_inplace]
      split
      · rfl
      · exact ih _

theorem getv_foldl_setzero {K A : Type} [DecidableEq K] (f : A → K)
    (P : K → Prop) (l : List A) :
    ∀ (acc : List (K × ℚ)), (∀ u, P u → getv acc u = 0) →
      ∀ u, P u → getv (l.foldl (fun t x => setv t (f x) 0) acc) u = 0 := by
  induction l with
  | nil => exact fun acc h => h
  | cons x rest ih =>
      intro acc h u hu
      simp only [List.foldl_cons]
      refine ih _ (fun w hw => ?_) u hu
      by_cases hwf : w = f x
      · subst hwf; exact getv_setv_self _ _ _
      · rw [getv_setv_other _ _ _ _ hwf]; exact h w hw

theorem getv_zero_table {S : Type} [DecidableEq S] (l : List S) (k : S) :
    getv (zero_table l) k = 0 :=
  getv_foldl_setzero (fun s => s) (fun _ => True) l [] (fun _ _ => rfl) k
    trivial

theorem getv_init_tables {S : Type} [DecidableEq S] (l : List S) (na : ℕ) :
    (∀ u, getv (init_tables l na).1 u = 0) ∧
      (∀ w, getv (init_tables l na).2 w = 0) := by
  unfold init_tables
  suffices hgen : ∀ (acc : List (S × ℚ) × List ((S × ℕ) × ℚ)),
      (∀ u, getv acc.1 u = 0) → (∀ w, getv acc.2 w = 0) →
      (∀ u, getv (l.foldl (fun t s =>
        (setv t.1 s 0,
          (List.range na).foldl (fun q a => setv q (s, a) 0) t.2)) acc).1 u = 0) ∧
      (∀ w, getv (l.foldl (fun t s =>
        (setv t.1 s 0,
          (List.range na).foldl (fun q a => setv q (s, a) 0) t.2)) acc).2 w = 0) by
    exact hgen ([], []) (fun _ => rfl) (fun _ => rfl)
  induction l with
  | nil => exact fun acc h1 h2 => ⟨h1, h2⟩
  | cons s rest ih =>
      intro acc h1 h2
      simp only [List.foldl_cons]
      refine ih _ (fun u => ?_) (fun w => ?_)
      · by_cases hus : u = s
        · subst hus; exact getv_setv_self _ _ _
        · rw [getv_setv_other _ _ _ _ hus]; exact h1 u
      · exact getv_foldl_setzero (fun a => (s, a)) (fun _ => True)
          (List.range na) acc.2 (fun w2 _ => h2 w2) w trivial

theorem pe_sweep_terminal {S : Type} [DecidableEq S] (is_terminal : S → Bool)
    (reward : S → ℚ) (rtrans : S → ℕ → List (S × ℚ)) (p : PolicyTable S)
    (γ : ℚ) (l : List S) :
    ∀ (V : List (S × ℚ)) (d : ℚ),
      (∀ t, is_terminal t = true → getv V t = 0) →
      ∀ t, is_terminal t = true →
        getv (pe_sweep is_terminal reward rtrans p γ l V d).1 t = 0 := by
  induction l with
  | nil => exact fun V d h => h
  | cons s rest ih =>
      intro V d h t ht
      by_cases hs : is_terminal s
      · simp only [pe_sweep, hs, if_true]
        refine ih _ _ (fun u hu => ?_) t ht
        by_cases hus : u = s
        · subst hus; exact getv_setv_self _ _ _
        · rw [getv_setv_other _ _ _ _ hus]; exact h u hu
      · simp only [pe_sweep, hs, Bool.false_eq_true, if_false]
        refine ih _ _ (fun u hu => ?_) t ht
        have hus : u ≠ s := fun he => hs (he ▸ hu)
        rw [getv_setv_other _ _ _ _ hus]; exact h u hu

theorem pe_loop_terminal {S : Type} [DecidableEq S] (states : List S)
    (is_terminal : S → Bool) (reward : S → ℚ)
    (rtrans : S → ℕ → List (S × ℚ)) (p : PolicyTable S) (γ θ : ℚ)
    (fuel : ℕ) :
    ∀ (V : List (S × ℚ)), (∀ t, is_terminal t = true → getv V t = 0) →
      ∀ t, is_terminal t = true →
        getv (pe_loop states is_terminal reward rtrans p γ θ fuel V) t = 0 := by
  induction fuel with
  | zero => exact fun V h => h
  | succ n ih =>
      intro V h t ht
      simp only [pe_loop]
      split
      · exact pe_sweep_terminal is_terminal reward rtrans p γ states V 0 h t ht
      · exact ih _ (pe_sweep_terminal is_terminal reward rtrans p γ states V 0 h)
          t ht

theorem ovi_action_loop_terminal {S : Type} [DecidableEq S]
    (is_terminal : S → Bool) (reward : S → ℚ)
    (rtrans : S → ℕ → List (S × ℚ)) (γ : ℚ) (V : List (S × ℚ)) (s : S)
    (hs : is_terminal s = false) (al : List ℕ) :
    ∀ (q : List ((S × ℕ) × ℚ)) (avs : List ℚ),
      (∀ w, is_terminal w.1 = true → getv q w = 0) →
      ∀ w, is_terminal w.1 = true →
        getv (ovi_action_loop reward rtrans γ V s al q avs).1 w = 0 := by
  induction al with
  | nil => exact fun q avs h => h
  | cons a rest ih =>
      intro q avs h w hw
      simp only [ovi_action_loop]
      refine ih _ _ (fun u hu => ?_) w hw
      have hne : u ≠ (s, a) := by
        intro he
        rw [he] at hu
        have hu2 : is_terminal s = true := hu
        rw [hs] at hu2
        exact Bool.false_ne_true hu2
      rw [getv_setv_other _ _ _ _ hne]; exact h u hu

theorem ovi_sweep_terminal {S : Type} [DecidableEq S] (is_terminal : S → Bool)
    (reward : S → ℚ) (rtrans : S → ℕ → List (S × ℚ)) (γ : ℚ) (na : ℕ)
    (l : List S) :
    ∀ (V : List (S × ℚ)) (q : List ((S × ℕ) × ℚ)) (d : ℚ),
      (∀ t, is_terminal t = true → getv V t = 0) →
      (∀ w, is_terminal w.1 = true → getv q w = 0) →
      (∀ t, is_terminal t = true →
          getv (ovi_sweep is_terminal reward rtrans γ na l (V, q, d)).1 t = 0) ∧
      (∀ w, is_terminal w.1 = true →
          getv (ovi_sweep is_terminal reward rtrans γ na l (V, q, d)).2.1 w
            = 0) := by
  induction l with
  | nil => exact fun V q d h1 h2 => ⟨h1, h2⟩
  | cons s rest ih =>
      intro V q d h1 h2
      by_cases hs : is_terminal s
      · simp only [ovi_sweep, hs, if_true]
        refine ih _ _ _ (fun u hu => ?_) (fun w hw => ?_)
        · by_cases hus : u = s
          · subst hus; exact getv_setv_self _ _ _
          · rw [getv_setv_other _ _ _ _ hus]; exact h1 u hu
        · exact getv_foldl_setzero (fun a => (s, a))
            (fun w2 => is_terminal w2.1 = true) (List.range na) q h2 w hw
      · have hsf : is_terminal s = false := Bool.not_eq_true _ |>.mp hs
        simp only [ovi_sweep, hs, Bool.false_eq_true, if_false]
        refine ih _ _ _ (fun u hu => ?_) (fun w hw => ?_)
        · have hus : u ≠ s := fun he => hs (he ▸ hu)
          rw [getv_setv_other _ _ _ _ hus]; exact h1 u hu
        · exact ovi_action_loop_terminal is_terminal reward rtrans γ V s hsf
            (List.range na) q [] h2 w hw

theorem ovi_loop_terminal {S : Type} [DecidableEq S] (states : List S)
    (is_terminal : S → Bool) (reward : S → ℚ)
    (rtrans : S → ℕ → List (S × ℚ)) (γ θ : ℚ) (na : ℕ) (fuel : ℕ) :
    ∀ (t : List (S × ℚ) × List ((S × ℕ) × ℚ)),
      (∀ u, is_terminal u = true → getv t.1 u = 0) →
      (∀ w, is_terminal w.1 = true → getv t.2 w = 0) →
      (∀ u, is_terminal u = true →
          getv (ovi_loop states is_terminal reward rtrans γ θ na fuel t).1 u
            = 0) ∧
      (∀ w, is_terminal w.1 = true →
          getv (ovi_loop states is_terminal reward rtrans γ θ na fuel t).2 w
            = 0) := by
  induction fuel with
  | zero => exact fun t h1 h2 => ⟨h1, h2⟩
  | succ n ih =>
      intro t h1 h2
      have hsw := ovi_sweep_terminal is_terminal reward rtrans γ na states
        t.1 t.2 0 h1 h2
      simp only [ovi_loop]
      split
      · exact hsw
      · exact ih _ hsw.1 hsw.2

/-- Claim C2: for every model and parameters, `policy_evaluation` and
`optimal_value_iteration` return value 0 for every terminal state, and
`optimal_value_iteration` returns Q-value 0 for every terminal state and every
action. -/
theorem c2_terminal_zero {S : Type} [DecidableEq S] (m : MDPNetwork S)
    (p : PolicyTable S) (γ θ : ℚ) (max_iterations : ℕ) (s : S) (a : ℕ)
    (hterm : m.is_terminal_state s = true) :
    getv (policy_evaluation m p γ θ max_iterations) s = 0 ∧
    getv (optimal_value_iteration m γ θ max_iterations).1 s = 0 ∧
    getv (optimal_value_iteration m γ θ max_iterations).2 (s, a) = 0 := by
  have hovi := ovi_loop_terminal m.states m.is_terminal_state
    m.get_state_reward (resolved_transitions m) γ θ m.num_actions
    max_iterations (init_tables m.states m.num_actions)
    (fun u _ => (getv_init_tables m.states m.num_actions).1 u)
    (fun w _ => (getv_init_tables m.states m.num_actions).2 w)
  refine ⟨?_, hovi.1 s hterm, hovi.2 (s, a) hterm⟩
  exact pe_loop_terminal m.states m.is_terminal_state m.get_state_reward
    (resolved_transitions m) p γ θ max_iterations (zero_table m.states)
    (fun t _ => getv_zero_table m.states t) s hterm

theorem c2_witness :
    chain_mdp.is_terminal_state 1 = true ∧
    getv (policy_evaluation chain_mdp one_policy (9/10) (1/1000000) 1000) 1
      = 0 ∧
    getv (optimal_value_iteration chain_mdp (9/10) (1/1000000) 1000).1 1 = 0 ∧
    getv (optimal_value_iteration chain_mdp (9/10) (1/1000000) 1000).2 (1, 0)
      = 0 :=
  ⟨rfl, (c2_terminal_zero chain_mdp one_policy (9/10) (1/1000000) 1000 1 0
    rfl).1,
    (c2_terminal_zero chain_mdp one_policy (9/10) (1/1000000) 1000 1 0
      rfl).2.1,
    (c2_terminal_zero chain_mdp one_policy (9/10) (1/1000000) 1000 1 0
      rfl).2.2⟩

theorem foldl_nonpos_skip {S : Type} [DecidableEq S] (reward : S → ℚ)
    (rtrans : S → ℕ → List (S × ℚ)) (γ : ℚ) (V : List (S × ℚ)) (s : S)
    (l : List (ℕ × ℚ)) :
    ∀ (acc : ℚ), (∀ ap ∈ l, ap.2 ≤ 0) →
      l.foldl
        (fun acc2 ap =>
          if ap.2 ≤ 0 then acc2
          else acc2 + ap.2 * action_value reward rtrans γ V s ap.1) acc
        = acc := by
  induction l with
  | nil => exact fun acc _ => rfl
  | cons ap rest ih =>
      intro acc h
      have h1 : ap.2 ≤ 0 := h ap (List.mem_cons_self _ _)
      simp only [List.foldl_cons, if_pos h1]
      exact ih acc (fun x hx => h x (List.mem_cons_of_mem _ hx))

theorem pe_state_value_nonpos {S : Type} [DecidableEq S] (reward : S → ℚ)
    (rtrans : S → ℕ → List (S × ℚ)) (p : PolicyTable S) (γ : ℚ)
    (V : List (S × ℚ)) (s : S) (hp : ∀ ap ∈ p s, ap.2 ≤ 0) :
    pe_state_value reward rtrans p γ V s = 0 :=
  foldl_nonpos_skip reward rtrans γ V s (p s) 0 hp

theorem pe_sweep_nopolicy {S : Type} [DecidableEq S] (is_terminal : S → Bool)
    (reward : S → ℚ) (rtrans : S → ℕ → List (S × ℚ)) (p : PolicyTable S)
    (γ : ℚ) (s : S) (hp : ∀ ap ∈ p s, ap.2 ≤ 0) (l : List S) :
    ∀ (V : List (S × ℚ)) (d : ℚ), getv V s = 0 →
      getv (pe_sweep is_terminal reward rtrans p γ l V d).1 s = 0 := by
  induction l with
  | nil => exact fun V d h => h
  | cons t rest ih =>
      intro V d h
      by_cases ht : is_terminal t
      · simp only [pe_sweep, ht, if_true]
        refine ih _ _ ?_
        by_cases hts : t = s
        · subst hts; exact getv_setv_self _ _ _
        · rw [getv_setv_other _ _ _ _ (fun he => hts he.symm)]; exact h
      · simp only [pe_sweep, ht, Bool.false_eq_true, if_false]
        refine ih _ _ ?_
        by_cases hts : t = s
        · subst hts
          rw [getv_setv_self]
          exact pe_state_value_nonpos reward rtrans p γ V t hp
        · rw [getv_setv_other _ _ _ _ (fun he => hts he.symm)]; exact h

theorem pe_loop_nopolicy {S : Type} [DecidableEq S] (states : List S)
    (is_terminal : S → Bool) (reward : S → ℚ)
    (rtrans : S → ℕ → List (S × ℚ)) (p : PolicyTable S) (γ θ : ℚ) (s : S)
    (hp : ∀ ap ∈ p s, ap.2 ≤ 0) (fuel : ℕ) :
    ∀ (V : List (S × ℚ)), getv V s = 0 →
      getv (pe_loop states is_terminal reward rtrans p γ θ fuel V) s = 0 := by
  induction fuel with
  | zero => exact fun V h => h
  | succ n ih =>
      intro V h
      simp only [pe_loop]
      split
      · exact pe_sweep_nopolicy is_terminal reward rtrans p γ s hp states V 0 h
      · exact ih _
          (pe_sweep_nopolicy is_terminal reward rtrans p γ s hp states V 0 h)

/-- Claim C10: a non-terminal state whose policy entry is empty or assigns
only non-positive probabilities keeps value 0 in `policy_evaluation`: each
sweep recomputes it as 0 and the returned table maps it to 0, with no
failure. -/
theorem c10_no_positive_action {S : Type} [DecidableEq S] (m : MDPNetwork S)
    (p : PolicyTable S) (γ θ : ℚ) (max_iterations : ℕ) (s : S)
    (hterm : m.is_terminal_state s = false) (hp : ∀ ap ∈ p s, ap.2 ≤ 0) :
    getv (policy_evaluation m p γ θ max_iterations) s = 0 :=
  pe_loop_nopolicy m.states m.is_terminal_state m.get_state_reward
    (resolved_transitions m) p γ θ s hp max_iterations (zero_table m.states)
    (getv_zero_table m.states s)

theorem c10_witness :
    loop_mdp.is_terminal_state 0 = false ∧
    getv (policy_evaluation loop_mdp empty_policy (9/10) (1/1000000) 1000) 0
      = 0 :=
  ⟨rfl, c10_no_positive_action loop_mdp empty_policy (9/10) (1/1000000) 1000 0
    rfl (fun ap hp => absurd hp (List.not_mem_nil ap))⟩

theorem policy_evaluation_congr {S : Type} [DecidableEq S]
    (m1 m2 : MDPNetwork S) (p : PolicyTable S) (γ θ : ℚ) (n : ℕ)
    (hstates : m1.states = m2.states)
    (hterm : m1.is_terminal_state = m2.is_terminal_state)
    (hreward : m1.get_state_reward = m2.get_state_reward)
    (hres : resolved_transitions m1 = resolved_transitions m2) :
    policy_evaluation m1 p γ θ n = policy_evaluation m2 p γ θ n := by
  unfold policy_evaluation
  rw [hstates, hterm, hreward, hres]

theorem optimal_value_iteration_congr {S : Type} [DecidableEq S]
    (m1 m2 : MDPNetwork S) (γ θ : ℚ) (n : ℕ)
    (hstates : m1.states = m2.states)
    (hterm : m1.is_terminal_state = m2.is_terminal_state)
    (hreward : m1.get_state_reward = m2.get_state_reward)
    (hnum : m1.num_actions = m2.num_actions)
    (hres : resolved_transitions m1 = resolved_transitions m2) :
    optimal_value_iteration m1 γ θ n = optimal_value_iteration m2 γ θ n := by
  unfold optimal_value_iteration
  rw [hstates, hterm, hreward, hnum, hres]

theorem compute_occupancy_measure_congr {S : Type} [DecidableEq S]
    (m1 m2 : MDPNetwork S) (p : PolicyTable S) (γ θ : ℚ) (n : ℕ)
    (hstates : m1.states = m2.states)
    (hterm : m1.is_terminal_state = m2.is_terminal_state)
    (hstart : m1.start_states = m2.start_states)
    (hres : resolved_transitions m1 = resolved_transitions m2) :
    compute_occupancy_measure m1 p γ θ n =
      compute_occupancy_measure m2 p γ θ n := by
  unfold compute_occupancy_measure
  rw [hstates, hterm, hstart, hres]

theorem resolved_with_self_loop {S : Type} [DecidableEq S] (m : MDPNetwork S)
    (s0 : S) (a0 : ℕ) (h : m.get_transition_probabilities s0 a0 = []) :
    resolved_transitions (with_self_loop m s0 a0) = resolved_transitions m := by
  funext s a
  simp only [resolved_transitions, with_self_loop]
  by_cases hs : s = s0 ∧ a = a0
  · obtain ⟨hs1, hs2⟩ := hs
    subst hs1
    subst hs2
    simp [h]
  · simp [hs]

/-- Claim C3: on a model whose transition distribution at some non-terminal
state and action is empty, all three distribution-driven solvers return
exactly the tables they return on the model carrying an explicit self-loop of
probability 1 at that pair. -/
theorem c3_empty_is_self_loop {S : Type} [DecidableEq S] (m : MDPNetwork S)
    (s0 : S) (a0 : ℕ) (p : PolicyTable S) (γ θ : ℚ) (n : ℕ)
    (hterm : m.is_terminal_state s0 = false)
    (h : m.get_transition_probabilities s0 a0 = []) :
    policy_evaluation m p γ θ n =
        policy_evaluation (with_self_loop m s0 a0) p γ θ n ∧
    optimal_value_iteration m γ θ n =
        optimal_value_iteration (with_self_loop m s0 a0) γ θ n ∧
    compute_occupancy_measure m p γ θ n =
        compute_occupancy_measure (with_self_loop m s0 a0) p γ θ n := by
  have hres : resolved_transitions (with_self_loop m s0 a0) =
      resolved_transitions m := resolved_with_self_loop m s0 a0 h
  exact ⟨(policy_evaluation_congr (with_self_loop m s0 a0) m p γ θ n rfl rfl
      rfl hres).symm,
    (optimal_value_iteration_congr (with_self_loop m s0 a0) m γ θ n rfl rfl
      rfl rfl hres).symm,
    (compute_occupancy_measure_congr (with_self_loop m s0 a0) m p γ θ n rfl
      rfl rfl hres).symm⟩

theorem c3_witness :
    hole_mdp.is_terminal_state 1 = false ∧
    hole_mdp.get_transition_probabilities 1 0 = [] ∧
    policy_evaluation hole_mdp one_policy (9/10) (1/1000000) 50 =
      policy_evaluation (with_self_loop hole_mdp 1 0) one_policy (9/10)
        (1/1000000) 50 ∧
    optimal_value_iteration hole_mdp (9/10) (1/1000000) 50 =
      optimal_value_iteration (with_self_loop hole_mdp 1 0) (9/10)
        (1/1000000) 50 ∧
    compute_occupancy_measure hole_mdp one_policy (9/10) (1/1000000) 50 =
      compute_occupancy_measure (with_self_loop hole_mdp 1 0) one_policy
        (9/10) (1/1000000) 50 := by
  have hc := c3_empty_is_self_loop hole_mdp 1 0 one_policy (9/10) (1/1000000)
    50 rfl rfl
  exact ⟨rfl, rfl, hc.1, hc.2.1, hc.2.2⟩

/-- Claim C8: with no start states, `compute_occupancy_measure` returns the
freshly zero-initialised table unchanged (the early return before the
iterative loop), so every state reads 0. -/
theorem c8_no_start_states {S : Type} [DecidableEq S] (m : MDPNetwork S)
    (p : PolicyTable S) (γ θ : ℚ) (n : ℕ) (s : S)
    (h : m.start_states = []) :
    compute_occupancy_measure m p γ θ n = zero_table m.states ∧
    getv (compute_occupancy_measure m p γ θ n) s = 0 := by
  have h1 : compute_occupancy_measure m p γ θ n = zero_table m.states := by
    unfold compute_occupancy_measure
    rw [h]
    rfl
  exact ⟨h1, by rw [h1]; exact getv_zero_table m.states s⟩

theorem c8_witness :
    nostart_mdp.start_states = [] ∧
    compute_occupancy_measure nostart_mdp one_policy (9/10) (1/1000000) 1000 =
      zero_table nostart_mdp.states ∧
    getv (compute_occupancy_measure nostart_mdp one_policy (9/10) (1/1000000)
      1000) 0 = 0 :=
  ⟨rfl,
    (c8_no_start_states nostart_mdp one_policy (9/10) (1/1000000) 1000 0
      rfl).1,
    (c8_no_start_states nostart_mdp one_policy (9/10) (1/1000000) 1000 0
      rfl).2⟩

theorem occ_state_step_terminal {S : Type} [DecidableEq S]
    (is_terminal : S → Bool) (rtrans : S → ℕ → List (S × ℚ))
    (p : PolicyTable S) (γ : ℚ) (s : S) (hterm : is_terminal s = true)
    (acc : List (S × ℚ) × ℚ × List (S × ℚ)) (sp : S × ℚ)
    (h : getv acc.1 s = 0) :
    getv (occ_state_step is_terminal rtrans p γ acc sp).1 s = 0 := by
  by_cases h1 : sp.2 ≤ 0
  · simp only [occ_state_step, if_pos h1]; exact h
  · by_cases h2 : is_terminal sp.1
    · simp only [occ_state_step, if_neg h1, h2, if_true]; exact h
    · simp only [occ_state_step, if_neg h1, h2, Bool.false_eq_true, if_false]
      have hne : s ≠ sp.1 := by
        intro he
        rw [he] at hterm
        rw [hterm] at h2
        exact h2 rfl
      rw [getv_setv_other _ _ _ _ hne]
      exact h

theorem occ_fold_terminal {S : Type} [DecidableEq S] (is_terminal : S → Bool)
    (rtrans : S → ℕ → List (S × ℚ)) (p : PolicyTable S) (γ : ℚ) (s : S)
    (hterm : is_terminal s = true) (cd : List (S × ℚ)) :
    ∀ (acc : List (S × ℚ) × ℚ × List (S × ℚ)), getv acc.1 s = 0 →
      getv (cd.foldl (occ_state_step is_terminal rtrans p γ) acc).1 s = 0 := by
  induction cd with
  | nil => exact fun acc h => h
  | cons sp rest ih =>
      intro acc h
      simp only [List.foldl_cons]
      exact ih _ (occ_state_step_terminal is_terminal rtrans p γ s hterm acc
        sp h)

theorem occ_loop_terminal {S : Type} [DecidableEq S] (states : List S)
    (is_terminal : S → Bool) (rtrans : S → ℕ → List (S × ℚ))
    (p : PolicyTable S) (γ θ : ℚ) (s : S) (hterm : is_terminal s = true)
    (fuel : ℕ) :
    ∀ (cd occ : List (S × ℚ)), getv occ s = 0 →
      getv (occ_loop states is_terminal rtrans p γ θ fuel cd occ) s = 0 := by
  induction fuel with
  | zero => exact fun cd occ h => h
  | succ n ih =>
      intro cd occ h
      simp only [occ_loop]
      split
      · exact occ_fold_terminal is_terminal rtrans p γ s hterm cd
          (occ, 0, zero_table states) h
      · exact ih _ _ (occ_fold_terminal is_terminal rtrans p γ s hterm cd
          (occ, 0, zero_table states) h)

theorem occ_cleanup_terminal {S : Type} [DecidableEq S]
    (is_terminal : S → Bool) (s : S) (l : List S) :
    ∀ (t : List (S × ℚ)), getv t s = 0 →
      getv (l.foldl (fun t2 u => if is_terminal u then setv t2 u 0 else t2) t)
        s = 0 := by
  induction l with
  | nil => exact fun t h => h
  | cons u rest ih =>
      intro t h
      simp only [List.foldl_cons]
      refine ih _ ?_
      by_cases hu : is_terminal u
      · simp only [hu, if_true]
        by_cases hus : u = s
        · subst hus; exact getv_setv_self _ _ _
        · rw [getv_setv_other _ _ _ _ (fun he => hus he.symm)]; exact h
      · simp only [hu, Bool.false_eq_true, if_false]; exact h

/-- Claim C9: the occupancy table returned by `compute_occupancy_measure`
maps every terminal state to exactly 0, for every model, policy and
parameters: terminal states never accumulate occupancy during iteration
(propagation and accumulation skip them) and the final cleanup forces their
entries to 0. -/
theorem c9_terminal_occupancy_zero {S : Type} [DecidableEq S]
    (m : MDPNetwork S) (p : PolicyTable S) (γ θ : ℚ) (n : ℕ) (s : S)
    (hterm : m.is_terminal_state s = true) :
    getv (compute_occupancy_measure m p γ θ n) s = 0 := by
  unfold compute_occupancy_measure
  by_cases hss : m.start_states.isEmpty
  · rw [if_pos hss]; exact getv_zero_table m.states s
  · rw [if_neg hss]
    exact occ_cleanup_terminal m.is_terminal_state s m.states _
      (occ_loop_terminal m.states m.is_terminal_state
        (resolved_transitions m) p γ θ s hterm n _ _
        (getv_zero_table m.states s))

theorem c9_witness :
    chain_mdp.is_terminal_state 1 = true ∧
    getv (compute_occupancy_measure chain_mdp one_policy (9/10) (1/1000000)
      1000) 1 = 0 :=
  ⟨rfl, c9_terminal_occupancy_zero chain_mdp one_policy (9/10) (1/1000000)
    1000 1 rfl⟩

theorem action_value_gamma0 {S : Type} [DecidableEq S] (reward : S → ℚ)
    (rtrans : S → ℕ → List (S × ℚ)) (V : List (S × ℚ)) (s : S) (a : ℕ) :
    action_value reward rtrans 0 V s a = one_step_q reward rtrans s a := by
  unfold action_value one_step_q
  refine List.foldl_ext _ _ 0 (fun acc np _ => ?_)
  rw [zero_mul, add_zero]

theorem ovi_action_loop_avs_gamma0 {S : Type} [DecidableEq S]
    (reward : S → ℚ) (rtrans : S → ℕ → List (S × ℚ)) (V : List (S × ℚ))
    (s : S) (al : List ℕ) :
    ∀ (q : List ((S × ℕ) × ℚ)) (avs : List ℚ),
      (ovi_action_loop reward rtrans 0 V s al q avs).2 =
        avs ++ al.map (one_step_q reward rtrans s) := by
  induction al with
  | nil => intro q avs; simp [ovi_action_loop]
  | cons a rest ih =>
      intro q avs
      simp only [ovi_action_loop, List.map_cons]
      rw [ih, action_value_gamma0]
      simp

theorem ovi_sweep_not_mem {S : Type} [DecidableEq S] (is_terminal : S → Bool)
    (reward : S → ℚ) (rtrans : S → ℕ → List (S × ℚ)) (γ : ℚ) (na : ℕ)
    (l : List S) :
    ∀ (acc : List (S × ℚ) × List ((S × ℕ) × ℚ) × ℚ) (s : S), s ∉ l →
      getv (ovi_sweep is_terminal reward rtrans γ na l acc).1 s =
        getv acc.1 s := by
  induction l with
  | nil => exact fun acc s _ => rfl
  | cons t rest ih =>
      intro acc s hs
      obtain ⟨V, q, d⟩ := acc
      have hst : s ≠ t := fun he => hs (he ▸ List.mem_cons_self t rest)
      have hsr : s ∉ rest := fun hr => hs (List.mem_cons_of_mem t hr)
      by_cases ht : is_terminal t
      · simp only [ovi_sweep, ht, if_true]
        rw [ih _ s hsr]
        exact getv_setv_other V t s 0 hst
      · simp only [ovi_sweep, ht, Bool.false_eq_true, if_false]
        rw [ih _ s hsr]
        exact getv_setv_other V t s _ hst

theorem ovi_sweep_mem_gamma0 {S : Type} [DecidableEq S]
    (is_terminal : S → Bool) (reward : S → ℚ)
    (rtrans : S → ℕ → List (S × ℚ)) (na : ℕ) (l : List S) :
    ∀ (V : List (S × ℚ)) (q : List ((S × ℕ) × ℚ)) (d : ℚ) (s : S), s ∈ l →
      getv (ovi_sweep is_terminal reward rtrans 0 na l (V, q, d)).1 s =
        (if is_terminal s then 0
          else pymax ((List.range na).map (one_step_q reward rtrans s))) := by
  induction l with
  | nil => intro V q d s hs; cases hs
  | cons t rest ih =>
      intro V q d s hs
      by_cases hmem : s ∈ rest
      · by_cases ht : is_terminal t
        · simp only [ovi_sweep, ht, if_true]
          exact ih _ _ _ s hmem
        · simp only [ovi_sweep, ht, Bool.false_eq_true, if_false]
          exact ih _ _ _ s hmem
      · have hst : s = t := by
          rcases List.mem_cons.mp hs with h1 | h2
          · exact h1
          · exact absurd h2 hmem
        subst hst
        by_cases ht : is_terminal s
        · simp only [ovi_sweep, ht, if_true]
          rw [ovi_sweep_not_mem is_terminal reward rtrans 0 na rest _ s hmem]
          exact getv_setv_self V s 0
        · simp only [ovi_sweep, ht, Bool.false_eq_true, if_false]
          rw [ovi_sweep_not_mem is_terminal reward rtrans 0 na rest _ s hmem]
          rw [getv_setv_self]
          rw [ovi_action_loop_avs_gamma0]
          simp

theorem ovi_loop_keeps_gamma0 {S : Type} [DecidableEq S] (states : List S)
    (is_terminal : S → Bool) (reward : S → ℚ)
    (rtrans : S → ℕ → List (S × ℚ)) (θ : ℚ) (na : ℕ) (fuel : ℕ) :
    ∀ (t : List (S × ℚ) × List ((S × ℕ) × ℚ)),
      (∀ s ∈ states, getv t.1 s =
        (if is_terminal s then 0
          else pymax ((List.range na).map (one_step_q reward rtrans s)))) →
      ∀ s ∈ states,
        getv (ovi_loop states is_terminal reward rtrans 0 θ na fuel t).1 s =
          (if is_terminal s then 0
            else pymax ((List.range na).map (one_step_q reward rtrans s))) := by
  induction fuel with
  | zero => exact fun t h => h
  | succ n ih =>
      intro t h s hs
      simp only [ovi_loop]
      split
      · exact ovi_sweep_mem_gamma0 is_terminal reward rtrans na states t.1 t.2
          0 s hs
      · exact ih _ (fun u hu => ovi_sweep_mem_gamma0 is_terminal reward rtrans
          na states t.1 t.2 0 u hu) s hs

theorem ovi_loop_gamma0 {S : Type} [DecidableEq S] (states : List S)
    (is_terminal : S → Bool) (reward : S → ℚ)
    (rtrans : S → ℕ → List (S × ℚ)) (θ : ℚ) (na : ℕ) (fuel : ℕ)
    (hfuel : 1 ≤ fuel) (t : List (S × ℚ) × List ((S × ℕ) × ℚ)) (s : S)
    (hs : s ∈ states) :
    getv (ovi_loop states is_terminal reward rtrans 0 θ na fuel t).1 s =
      (if is_terminal s then 0
        else pymax ((List.range na).map (one_step_q reward rtrans s))) := by
  match fuel, hfuel with
  | Nat.succ n, _ =>
      simp only [ovi_loop]
      split
      · exact ovi_sweep_mem_gamma0 is_terminal reward rtrans na states t.1 t.2
          0 s hs
      · exact ovi_loop_keeps_gamma0 states is_terminal reward rtrans θ na n _
          (fun u hu => ovi_sweep_mem_gamma0 is_terminal reward rtrans na
            states t.1 t.2 0 u hu) s hs

/-- Claim C7: with gamma = 0, after at least one sweep (and therefore at any
convergence point), `optimal_value_iteration` assigns every non-terminal state
of the model the maximum one-step expected reward achievable from it,
independently of theta and of the iteration cap. -/
theorem c7_gamma0_one_step {S : Type} [DecidableEq S] (m : MDPNetwork S)
    (θ : ℚ) (max_iterations : ℕ) (hfuel : 1 ≤ max_iterations) (s : S)
    (hs : s ∈ m.states) (hterm : m.is_terminal_state s = false) :
    getv (optimal_value_iteration m 0 θ max_iterations).1 s =
      max_one_step_reward m s := by
  unfold optimal_value_iteration
  rw [ovi_loop_gamma0 m.states m.is_terminal_state m.get_state_reward
    (resolved_transitions m) θ m.num_actions max_iterations hfuel
    (init_tables m.states m.num_actions) s hs]
  rw [hterm]
  simp [max_one_step_reward]

theorem c7_witness :
    1 ≤ 5 ∧ 0 ∈ chain_mdp.states ∧
    chain_mdp.is_terminal_state 0 = false ∧
    getv (optimal_value_iteration chain_mdp 0 (1/1000000) 5).1 0 =
      max_one_step_reward chain_mdp 0 :=
  ⟨by decide, by decide, rfl,
    c7_gamma0_one_step chain_mdp (1/1000000) 5 (by decide) 0 (by decide) rfl⟩

/-- Claim C5 is refuted at a concrete input: on `loop_mdp` (state 1 moves to
state 0, whose value grows in the same sweep) a single sweep of the
implementation differs from the Jacobi-style reference the claim describes,
because state 1's backup reads state 0's value as already updated in that
sweep. -/
theorem c5_counterexample :
    ¬ getv (policy_evaluation loop_mdp one_policy (1/2) (1/1000000) 1) 1 =
        getv (policy_evaluation_jacobi loop_mdp one_policy (1/2) (1/1000000) 1)
          1 := by with_unfolding_all decide

/-- Claim C5 (amended): within each sweep `policy_evaluation` updates the value
table in place, so a state's backup reads the values already written earlier in
the same sweep for the states processed before it (Gauss-Seidel order); the
solver coincides with the in-place-threaded reference for all inputs. -/
theorem c5_amended_inplace {S : Type} [DecidableEq S] (m : MDPNetwork S)
    (p : PolicyTable S) (γ θ : ℚ) (max_iterations : ℕ) :
    policy_evaluation m p γ θ max_iterations =
      policy_evaluation_inplace m p γ θ max_iterations := by
  simp only [policy_evaluation, policy_evaluation_inplace, pe_loop_eq_inplace]

/-- Claim C1 is refuted on the spec's own scenario: on the 2-state chain with
gamma = 0.9 the solver returns value(A) = 1, not 0.9, because the arrival
reward at B enters the backup undiscounted. -/
theorem c1_counterexample :
    ¬ getv (optimal_value_iteration chain_mdp (9/10) (1/1000000) 1000).1 0 =
        9/10 := by with_unfolding_all decide

/-- Claim C1 (amended): on the 2-state chain `A -> B (terminal)` with
reward(A) = 0, reward(B) = 1, gamma = 0.9 and the default theta and iteration
cap, `optimal_value_iteration` returns value(B) = 0, value(A) = 1 and
Q(A,0) = 1. -/
theorem c1_amended :
    getv (optimal_value_iteration chain_mdp (9/10) (1/1000000) 1000).1 1 = 0 ∧
    getv (optimal_value_iteration chain_mdp (9/10) (1/1000000) 1000).1 0 = 1 ∧
    getv (optimal_value_iteration chain_mdp (9/10) (1/1000000) 1000).2 (0, 0) =
      1 := by with_unfolding_all decide

/-- Claim C4: `q_learning` is a deterministic function of the model, the
hyper-parameters and the seeded random stream, so two runs consuming the same
stream of draws return identical Q-tables and value tables. -/
theorem c4_q_learning_deterministic {S : Type} [DecidableEq S]
    (m : MDPNetwork S) (α γ ε : ℚ) (num_episodes max_steps : ℕ)
    (r1 r2 : ℕ → ℚ) (h : ∀ n, r1 n = r2 n) :
    q_learning m α γ ε num_episodes max_steps r1 =
      q_learning m α γ ε num_episodes max_steps r2 := by
  rw [funext h]

theorem c4_witness :
    q_learning chain_mdp (1/10) (9/10) (1/10) 10 3 (fun _ => 1/2) =
      q_learning chain_mdp (1/10) (9/10) (1/10) 10 3 (fun _ => 2/4) :=
  c4_q_learning_deterministic chain_mdp (1/10) (9/10) (1/10) 10 3 _ _
    (fun _ => by norm_num)

/-- Claim C6's failing input: with `num_episodes = 5` the progress report of
line 274 evaluates `(episode + 1) % (5 // 10)`, a modulo by zero, so the run
fails instead of returning a Q-table. -/
theorem c6_progress_crash :
    q_learning chain_mdp (1/10) (9/10) (1/10) 5 3 (fun _ => 1/2) =
      Except.error () := by with_unfolding_all rfl

end MDPSolvers
